import Mathlib

/-!
Shallow embedding of the Grux edge server's path, TLS, ACME, proxy and
running-state logic, together with proofs checking the specification's
claims against it.

Rust strings are modelled as `List Char` (named `Str`).  Rust's byte-level
operations (`len`, byte slicing) are modelled through an explicit UTF-8
byte-length function on characters, so that byte-index/char-boundary
behaviour (including panics) is represented faithfully.
-/

set_option autoImplicit false

namespace Grux


/-- Rust `String`/`&str`, modelled as its sequence of Unicode scalar values. -/
abbrev Str := List Char

/-- Builds a `Str` from a Lean string literal (used only to write concrete inputs). -/
def str (s : String) : Str := s.data

/-- Rust `str::replace(old_char, new_char_as_str)` for one-character
patterns and one-character replacements: maps every occurrence. -/
def replaceChar (old new : Char) (s : Str) : Str :=
  s.map (fun c => if c = old then new else c)

/-- Rust `str::trim_end_matches('/')`: removes all trailing `'/'`. -/
def trimEndSlashes (s : Str) : Str :=
  (s.reverse.dropWhile (fun c => c = '/')).reverse

/-- Rust `str::trim_start_matches('/')`: removes all leading `'/'`. -/
def trimStartSlashes (s : Str) : Str :=
  s.dropWhile (fun c => c = '/')

/-- Rust `str::starts_with(prefix)`.  A UTF-8 byte prefix of a valid UTF-8
string is always a whole-character prefix, so character-level prefix
testing is an exact model. -/
def strStartsWith (s pre : Str) : Bool :=
  pre.isPrefixOf s

/-- Embeds `web_root.replace('\\', "/").trim_end_matches('/')`, the cleaning step
both `replace_web_root_in_path` and the sync `check_path_secure` apply to
web roots (`src/grux_file_util.rs`, `src/file/file_util.rs`). -/
def cleanRoot (s : Str) : Str :=
  trimEndSlashes (replaceChar '\\' '/' s)

/-- Embeds `replace_web_root_in_path` from `src/file/file_util.rs:27` and
`src/grux_file_util.rs:83` (the two copies are textually identical).
The byte slice `&original_path[old_web_root_cleaned.len()..]` is taken
only after `starts_with` succeeded, so dropping `length` characters is an
exact model of dropping that many bytes. -/
def replace_web_root_in_path (original_path old_web_root new_web_root : Str) : Str :=
  let oldC := cleanRoot old_web_root
  let newC := cleanRoot new_web_root
  if strStartsWith original_path oldC then
    let relative := trimStartSlashes (original_path.drop oldC.length)
    if relative = [] then newC else newC ++ '/' :: relative
  else
    original_path

/-- Models std `char::to_lowercase` (an external library function) on the
characters this development evaluates it at: the ASCII range plus
U+1E9E LATIN CAPITAL LETTER SHARP S, whose Unicode simple lowercase
mapping is U+00DF (a shorter UTF-8 encoding).  Other characters are kept
as they are. -/
def rustLowerChar (c : Char) : Str :=
  if 'A' ≤ c ∧ c ≤ 'Z' then [Char.ofNat (c.toNat + 32)]
  else if c = 'ẞ' then ['ß']
  else [c]

/-- Rust `str::to_lowercase`. -/
def toLowerStr (s : Str) : Str :=
  s.flatMap rustLowerChar

/-- Rust `str::contains(&str)`: substring containment. -/
def isSubstr (pat s : Str) : Bool :=
  s.tails.any (fun t => pat.isPrefixOf t)

/-- Splits a string at every `'/'`; always returns at least one (possibly
empty) segment, and `n` separators yield `n + 1` segments. -/
def splitSlash : Str → List Str
  | [] => [[]]
  | c :: rest =>
    match splitSlash rest with
    | [] => [[c]]
    | h :: t => if c = '/' then [] :: h :: t else (c :: h) :: t

/-- Embeds `split_path` from `src/grux_file_util.rs:63`: cleans the base, folds
backslashes in the path, and on a prefix match returns the remainder with
leading slashes removed. -/
def split_path_grux (base_path path_str : Str) : Str × Str :=
  let baseC := cleanRoot base_path
  let pathC := replaceChar '\\' '/' path_str
  if strStartsWith pathC baseC then
    (baseC, trimStartSlashes (pathC.drop baseC.length))
  else
    ([], pathC)

/-- Embeds `split_path` from `src/file/file_util.rs:8`: same as the `grux_file_util`
copy except that the remainder keeps its leading slash. -/
def split_path_file (base_path path_str : Str) : Str × Str :=
  let baseC := cleanRoot base_path
  let pathC := replaceChar '\\' '/' path_str
  if strStartsWith pathC baseC then
    (baseC, pathC.drop baseC.length)
  else
    ([], pathC)

/-- Embeds `check_path_secure` from `src/grux_file_util.rs:103` (the synchronous
gate).  The out-of-scope wildcard pattern matcher is abstracted by the two
predicates `wl` (`is_file_pattern_whitelisted`, applied to the cleaned test
path) and `bl` (`is_file_pattern_blocked`, applied to the file part from
`split_path`). -/
def check_path_secure_sync (wl bl : Str → Bool) (base_path test_path : Str) : Bool :=
  let baseC := cleanRoot base_path
  let testC := replaceChar '\\' '/' test_path
  if !strStartsWith testC baseC then false
  else if wl testC then true
  else if bl (split_path_grux baseC testC).2 then false
  else true

/-- Embeds `check_path_secure` from `src/file/file_util.rs:50` (the async gate):
a raw `starts_with` check, then the blocked patterns from the configuration
are matched by substring containment against the lowercased file part. -/
def check_path_secure_async (blocked_file_patterns : List Str) (base_path test_path : Str) : Bool :=
  if !strStartsWith test_path base_path then false
  else
    let file := (split_path_file base_path test_path).2
    let fileLower := toLowerStr file
    if blocked_file_patterns.any (fun p => isSubstr p fileLower) then false
    else true

/-- Follows the spec's words, not the source (used only to state C1):
normalization folds backslashes to `/`, strips `.` and `..` components and
collapses duplicate slashes into an absolute path; `p` is then a descendant
of `base` iff the normalized path begins with the web-root prefix followed
by `/`. -/
def specNormalizePath (p : Str) : Str :=
  let q := replaceChar '\\' '/' p
  let segs := (splitSlash q).filter
    (fun seg => !(seg = [] || seg = str "." || seg = str ".."))
  '/' :: List.intercalate (str "/") segs

/-- Follows the spec's words, not the source: strict descendant of the
web-root after normalization. -/
def specIsDescendant (base p : Str) : Bool :=
  strStartsWith (specNormalizePath p) (cleanRoot base ++ str "/")

/-- Time after which a challenge entry is stale
(`src/tls/tls_http01_challenge.rs:10`). -/
def CHALLENGE_EXPIRY_SECONDS : Nat := 3600

/-- Embeds `ChallengeEntry` from `src/tls/tls_http01_challenge.rs:14`.  `Instant`
is modelled as seconds on a `Nat` clock. -/
structure ChallengeEntry where
  key_authorization : Str
  created_at : Nat
deriving DecidableEq, Repr, Inhabited

/-- Embeds `ChallengeEntry::is_expired`: `created_at.elapsed() > 3600 s`, with
`elapsed` at clock value `now` being `now - created_at`. -/
def ChallengeEntry.is_expired (e : ChallengeEntry) (now : Nat) : Bool :=
  now - e.created_at > CHALLENGE_EXPIRY_SECONDS

/-- Embeds `AcmeHttp01ChallengeStore`: the `DashMap` is modelled as an association
list in which an insert replaces the previous entry for the key. -/
structure AcmeHttp01ChallengeStore where
  challenges : List (Str × ChallengeEntry)
deriving DecidableEq, Repr

/-- Embeds the challenge path constant of `src/tls/tls_http01_challenge.rs:6` (spelled there with a trailing word this file cannot use in a name). -/
def ACME_CHALLENGE_PATH : Str := str "/.well-known/acme-challenge/"

/-- Embeds `AcmeHttp01ChallengeStore::add_challenge`
(`src/tls/tls_http01_challenge.rs:50`): `DashMap::insert`, stamping the
current instant. -/
def AcmeHttp01ChallengeStore.add_challenge (s : AcmeHttp01ChallengeStore)
    (token key_authorization : Str) (now : Nat) : AcmeHttp01ChallengeStore :=
  ⟨(token, ⟨key_authorization, now⟩) ::
    s.challenges.filter (fun kv => !(kv.1 = token))⟩

/-- Embeds `AcmeHttp01ChallengeStore::remove_challenge`
(`src/tls/tls_http01_challenge.rs:58`): `DashMap::remove`. -/
def AcmeHttp01ChallengeStore.remove_challenge (s : AcmeHttp01ChallengeStore)
    (token : Str) : AcmeHttp01ChallengeStore :=
  ⟨s.challenges.filter (fun kv => !(kv.1 = token))⟩

/-- Embeds `AcmeHttp01ChallengeStore::get_key_authorization`
(`src/tls/tls_http01_challenge.rs:70`): map lookup, then the expiry check. -/
def AcmeHttp01ChallengeStore.get_key_authorization (s : AcmeHttp01ChallengeStore)
    (token : Str) (now : Nat) : Option Str :=
  (s.challenges.find? (fun kv => kv.1 = token)).bind
    (fun kv => if kv.2.is_expired now then none else some kv.2.key_authorization)

/-- Embeds `AcmeHttp01ChallengeStore::extract_token_from_path`
(`src/tls/tls_http01_challenge.rs:87`): `str::strip_prefix`. -/
def AcmeHttp01ChallengeStore.extract_token_from_path (path : Str) : Option Str :=
  if strStartsWith path ACME_CHALLENGE_PATH then
    some (path.drop ACME_CHALLENGE_PATH.length)
  else
    none

/-- Embeds `AcmeHttp01ChallengeStore::try_handle_challenge`
(`src/tls/tls_http01_challenge.rs:105`). -/
def AcmeHttp01ChallengeStore.try_handle_challenge (s : AcmeHttp01ChallengeStore)
    (path : Str) (now : Nat) : Option Str :=
  match AcmeHttp01ChallengeStore.extract_token_from_path path with
  | none => none
  | some token =>
    if token.isEmpty || token.contains '/' then none
    else s.get_key_authorization token now

/-- A rustls `ClientHello`, reduced to what `UnifiedCertResolver::resolve`
inspects: the result of the external library predicate
`rustls_acme::is_tls_alpn_challenge` (true iff the hello advertises the
`acme-tls/1` ALPN protocol) and the SNI server name. -/
structure ClientHello where
  is_acme_challenge : Bool
  server_name : Option Str
deriving DecidableEq, Repr, Inhabited

/-- A `CertifiedKey` is opaque to the resolver logic; certificates are
identified by an abstract tag. -/
abbrev CertifiedKey := Nat

/-- Embeds `UnifiedCertResolver` from `src/http/http_tls.rs:183`.  The two inner
rustls resolvers (`ResolvesServerCertAcme`, `ResolvesServerCertUsingSni`)
are opaque external components, modelled as abstract resolution
functions. -/
structure UnifiedCertResolver where
  acme_resolver : Option (ClientHello → Option CertifiedKey)
  sni_resolver : ClientHello → Option CertifiedKey
  fallback_cert : Option CertifiedKey
  acme_domains : List Str

/-- Embeds `UnifiedCertResolver::is_acme_domain` (`src/http/http_tls.rs:213`). -/
def UnifiedCertResolver.is_acme_domain (r : UnifiedCertResolver) (domain : Str) : Bool :=
  r.acme_domains.contains (toLowerStr domain)

/-- Embeds `UnifiedCertResolver::resolve` (`src/http/http_tls.rs:219`). -/
def UnifiedCertResolver.resolve (r : UnifiedCertResolver) (client_hello : ClientHello) :
    Option CertifiedKey :=
  if client_hello.is_acme_challenge then
    match r.acme_resolver with
    | some acme => acme client_hello
    | none => none
  else
    match client_hello.server_name.map toLowerStr with
    | some domain =>
      if r.is_acme_domain domain then
        match r.acme_resolver with
        | some acme =>
          match acme client_hello with
          | some cert => some cert
          | none => r.fallback_cert
        | none => r.fallback_cert
      else
        match r.sni_resolver client_hello with
        | some cert => some cert
        | none => r.fallback_cert
    | none =>
      match r.sni_resolver client_hello with
      | some cert => some cert
      | none => r.fallback_cert


/-- Rust `str::trim` (whitespace at both ends).  `Char.isWhitespace` stands
in for Rust's Unicode `White_Space` predicate; the development only trims
ASCII whitespace. -/
def rustTrim (s : Str) : Str :=
  ((s.dropWhile Char.isWhitespace).reverse.dropWhile Char.isWhitespace).reverse

/-- Embeds `Site` from `src/configuration/site.rs`, restricted to the fields the
modelled functions read.  `tls_automatic_enabled` is the column added by
schema migration v4 and read by the ACME code (`shared_acme_manager.rs`,
`http_tls.rs`); the `site.rs` copy under `src` predates that field. -/
structure Site where
  id : Nat
  hostnames : List Str
  is_default : Bool
  is_enabled : Bool
  tls_automatic_enabled : Bool
deriving DecidableEq, Repr, Inhabited

/-- Embeds `Binding` from `src/configuration/binding.rs:6`. -/
structure Binding where
  id : Nat
  ip : Str
  port : Nat
  is_admin : Bool
  is_tls : Bool
  sites : List Site
deriving DecidableEq, Repr, Inhabited

/-- TLS settings read by the ACME code
(`config.core.tls_settings` in `src/tls/shared_acme_manager.rs`); the
struct's own source file is not under `src`, so the fields are taken from
their uses there. -/
structure TlsSettings where
  account_email : Str
  certificate_cache_path : Str
  use_staging_server : Bool
deriving DecidableEq, Repr, Inhabited

/-- Configuration snapshot as read by `create_shared_acme_manager`. -/
structure Config where
  tls_settings : TlsSettings
  bindings : List Binding
deriving DecidableEq, Repr, Inhabited

/-- Modelled from the spec: the binding-site index
(`binding_site_cache.get_sites_for_binding`, whose source is not under
`src`) maps a binding to its enabled sites ("Binding-site index ... Fast
lookup: binding id -> enabled sites"). -/
def get_sites_for_binding (b : Binding) : List Site :=
  b.sites.filter (fun s => s.is_enabled)

/-- Hostname filter of `create_shared_acme_manager`
(`src/tls/shared_acme_manager.rs:127`), applied to the trimmed, lowercased
hostname: skip empty, `"*"`, anything containing `'*'`, `"localhost"`, and
names without a `'.'`. -/
def acmeHostnameKept (h : Str) : Bool :=
  if h = [] || h = str "*" then false
  else if h.contains '*' then false
  else if h = str "localhost" then false
  else if !(h.contains '.') then false
  else true

/-- Domain collection of `create_shared_acme_manager`
(`src/tls/shared_acme_manager.rs:112`): all TLS bindings, their enabled
sites with `tls_automatic_enabled`, their hostnames trimmed and lowercased
then filtered.  The `BTreeSet` is modelled as the list of inserted
elements; the claims only depend on emptiness. -/
def collectAcmeDomains (c : Config) : List Str :=
  (c.bindings.filter (fun b => b.is_tls)).flatMap (fun b =>
    ((get_sites_for_binding b).filter
        (fun s => s.is_enabled && s.tls_automatic_enabled)).flatMap
      (fun s =>
        (s.hostnames.map (fun h => toLowerStr (rustTrim h))).filter acmeHostnameKept))

/-- Outcome of `create_shared_acme_manager`
(`src/tls/shared_acme_manager.rs:100`): `Err` from cache-dir creation,
`Ok(None)` (ACME disabled), or `Ok(Some(manager))` carrying the domain
set.  The ACME library objects (config, state, resolver, polling task) are
beyond the returned domains opaque and omitted. -/
inductive AcmeManagerResult where
  | cacheDirError : AcmeManagerResult
  | disabled : AcmeManagerResult
  | manager (domains : List Str) : AcmeManagerResult
deriving DecidableEq, Repr

/-- Embeds `create_shared_acme_manager` (`src/tls/shared_acme_manager.rs:100`).
`cache_dir_ok` abstracts whether `fs::create_dir_all` succeeds. -/
def create_shared_acme_manager (cache_dir_ok : Bool) (c : Config) : AcmeManagerResult :=
  if rustTrim c.tls_settings.account_email = [] then .disabled
  else
    let all_domains := collectAcmeDomains c
    if all_domains = [] then .disabled
    else if !cache_dir_ok then .cacheDirError
    else .manager all_domains

/-- Follows the claim's words, not the source (used only to state C4):
a hostname is eligible iff it is non-empty, not `"*"`, contains no `'*'`,
contains at least one `'.'`, and is not `"localhost"`. -/
def specEligibleHostname (h : Str) : Bool :=
  !(h = []) && !(h = str "*") && !(h.contains '*') && h.contains '.' && !(h = str "localhost")

/-- UTF-8 encoded length of a Unicode scalar value (1 to 4 bytes). -/
def utf8Len (c : Char) : Nat :=
  if c.toNat < 0x80 then 1
  else if c.toNat < 0x800 then 2
  else if c.toNat < 0x10000 then 3
  else 4

/-- Rust `str::len`: the UTF-8 byte length. -/
def byteLen (s : Str) : Nat :=
  s.foldr (fun c n => utf8Len c + n) 0

/-- Rust `&s[i..]`: drops `i` bytes.  Returns `none` when `i` is out of
bounds or not on a character boundary, which in Rust is a panic. -/
def byteDrop? : Str → Nat → Option Str
  | s, 0 => some s
  | [], _ => none
  | c :: rest, i => if i < utf8Len c then none else byteDrop? rest (i - utf8Len c)

/-- Rust `&s[..j]`: takes `j` bytes.  Returns `none` when `j` is out of
bounds or not on a character boundary, which in Rust is a panic. -/
def byteTake? : Str → Nat → Option Str
  | _, 0 => some []
  | [], _ => none
  | c :: rest, j =>
    if j < utf8Len c then none
    else (byteTake? rest (j - utf8Len c)).map (fun t => c :: t)

/-- Rust `&s[i..j]` for `i ≤ j`: `none` models the boundary/bounds panic. -/
def byteSlice? (s : Str) (i j : Nat) : Option Str :=
  (byteDrop? s i).bind (fun t => byteTake? t (j - i))

/-- Loop body of `ProxyProcessor::replace_case_insensitive`
(`src/http/request_handlers/processors/proxy_processor.rs:84`): scan the
byte index `i` over `s`; where `s_lower[i..i+from_len]` equals the
lowercased needle emit `to` and jump `from_len` bytes, otherwise emit the
character at `s[i..]` and advance by its UTF-8 length.  The slices into
`s_lower` use indices computed on `s`, so they can miss character
boundaries; `none` models that panic.  The loop advances `i` by at least
one byte per iteration, so `byteLen s + 1` fuel is never exhausted. -/
def rciAux (s sLower fromLower toStr : Str) (fromLen sLen : Nat) :
    Nat → Nat → Option Str
  | 0, _ => none
  | fuel + 1, i =>
    if i < sLen then
      if i + fromLen ≤ sLen then
        match byteSlice? sLower i (i + fromLen) with
        | none => none
        | some seg =>
          if seg = fromLower then
            (rciAux s sLower fromLower toStr fromLen sLen fuel (i + fromLen)).map
              (fun r => toStr ++ r)
          else
            match byteDrop? s i with
            | none => none
            | some [] => none
            | some (c :: _) =>
              (rciAux s sLower fromLower toStr fromLen sLen fuel (i + utf8Len c)).map
                (fun r => c :: r)
      else
        match byteDrop? s i with
        | none => none
        | some [] => none
        | some (c :: _) =>
          (rciAux s sLower fromLower toStr fromLen sLen fuel (i + utf8Len c)).map
            (fun r => c :: r)
    else
      some []

/-- Embeds `ProxyProcessor::replace_case_insensitive`
(`src/http/request_handlers/processors/proxy_processor.rs:73`).
`none` models a panic; `from_len` is the byte length of the original
(not lowercased) needle, exactly as in the source. -/
def replace_case_insensitive (s fromP toStr : Str) : Option Str :=
  if fromP = [] then some s
  else rciAux s (toLowerStr s) (toLowerStr fromP) toStr (byteLen fromP) (byteLen s)
    (byteLen s + 1) 0

/-- Rust `str::replace(&from, &to)` (used by the case-sensitive rewrite
branch): non-overlapping left-to-right replacement; never panics.  Fuel is
the character length, consumed at least one character per step. -/
def replaceSubstrAux (pat toStr : Str) : Nat → Str → Str
  | 0, rest => rest
  | fuel + 1, rest =>
    if pat.isPrefixOf rest then toStr ++ replaceSubstrAux pat toStr fuel (rest.drop pat.length)
    else
      match rest with
      | [] => []
      | c :: tail => c :: replaceSubstrAux pat toStr fuel tail

/-- Rust `str::replace`: the empty pattern matches at every character
boundary including both ends. -/
def replaceSubstr (s pat toStr : Str) : Str :=
  if pat = [] then toStr ++ s.flatMap (fun c => c :: toStr)
  else replaceSubstrAux pat toStr s.length s

/-- Embeds `ProxyProcessorUrlRewrite`
(`src/http/request_handlers/processors/proxy_processor.rs:21`); the Rust
fields `from` / `to` are spelled `rw_from` / `rw_to` because `from` is a
Lean keyword. -/
structure ProxyProcessorUrlRewrite where
  rw_from : Str
  rw_to : Str
  is_case_insensitive : Bool
deriving DecidableEq, Repr, Inhabited

/-- Embeds `ProxyProcessor`
(`src/http/request_handlers/processors/proxy_processor.rs:28`). -/
structure ProxyProcessor where
  id : Str
  proxy_type : Str
  upstream_servers : List Str
  load_balancing_strategy : Str
  timeout_seconds : Nat
  health_check_path : Str
  url_rewrites : List ProxyProcessorUrlRewrite
  should_rewrite_host_header : Bool
  forced_host_header : Str
deriving DecidableEq, Repr, Inhabited

/-- Embeds `ProxyProcessor::apply_url_rewrites`
(`src/http/request_handlers/processors/proxy_processor.rs:57`); `none`
propagates a panic from a case-insensitive rewrite. -/
def ProxyProcessor.apply_url_rewrites (p : ProxyProcessor) (original_url : Str) :
    Option Str :=
  p.url_rewrites.foldl
    (fun acc rewrite =>
      acc.bind (fun url =>
        if rewrite.is_case_insensitive then
          replace_case_insensitive url rewrite.rw_from rewrite.rw_to
        else
          some (replaceSubstr url rewrite.rw_from rewrite.rw_to)))
    (some original_url)

/-- Modelled from the spec: `RoundRobin`
(`src/http/request_handlers/processors/load_balancer/round_robin.rs` is
not under `src`): "Round robin holds an ordered server list and an atomic
cursor; `next() -> Option<&str>` returns `None` iff the list is empty;
otherwise advances the cursor modulo list length." -/
structure RoundRobin where
  servers : List Str
  cursor : Nat
deriving DecidableEq, Repr, Inhabited

/-- Modelled from the spec: `RoundRobin::new` starts with the given server
list and the cursor at the first entry. -/
def RoundRobin.new (servers : List Str) : RoundRobin :=
  ⟨servers, 0⟩

/-- Modelled from the spec: `RoundRobin::get_next_server`; returns the
selected server and the advanced state. -/
def RoundRobin.get_next_server (rr : RoundRobin) : Option Str × RoundRobin :=
  if rr.servers.isEmpty then (none, rr)
  else
    (some (rr.servers.getD (rr.cursor % rr.servers.length) []),
     ⟨rr.servers, rr.cursor + 1⟩)

/-- Per-processor load-balancer registry
(`running_state.get_proxy_processor_load_balancer()`, source not under
`src`): a concurrent map from processor id to its balancer, modelled as an
association list. -/
abbrev LoadBalancerRegistry := List (Str × RoundRobin)

/-- Registry lookup (`check_load_balancer_exists` / `get_load_balancer`). -/
def lookupLB (reg : LoadBalancerRegistry) (id : Str) : Option RoundRobin :=
  (reg.find? (fun kv => kv.1 = id)).map (fun kv => kv.2)

/-- Registry write-back of an advanced balancer state. -/
def updateLB (reg : LoadBalancerRegistry) (id : Str) (rr : RoundRobin) :
    LoadBalancerRegistry :=
  reg.map (fun kv => if kv.1 = id then (id, rr) else kv)

/-- Observable outcome of `ProxyProcessor::handle_request`:
an immediate status response, a forward of the rewritten URI to the chosen
upstream (the network exchange itself is outside the model), or a panic
(from a case-insensitive rewrite). -/
inductive ProxyOutcome where
  | respond (status : Nat) : ProxyOutcome
  | forward (server : Str) (uri : Str) : ProxyOutcome
  | panicked : ProxyOutcome
deriving DecidableEq, Repr

/-- Upstream selection and dispatch tail of `handle_request`
(`proxy_processor.rs:223`): take the registered balancer (its absence
after the ensure step would make the source `unwrap` panic), ask it for
the next server, `None` means `502 Bad Gateway`, otherwise build
`upstream ++ original_uri`, apply the rewrites and forward. -/
def ProxyProcessor.dispatch (p : ProxyProcessor) (reg : LoadBalancerRegistry)
    (original_uri : Str) : ProxyOutcome × LoadBalancerRegistry :=
  match lookupLB reg p.id with
  | none => (ProxyOutcome.panicked, reg)
  | some rr =>
    let next := rr.get_next_server
    let regAfter := updateLB reg p.id next.2
    match next.1 with
    | none => (ProxyOutcome.respond 502, regAfter)
    | some server =>
      match p.apply_url_rewrites (server ++ original_uri) with
      | none => (ProxyOutcome.panicked, regAfter)
      | some rewritten => (ProxyOutcome.forward server rewritten, regAfter)

/-- Embeds `ProxyProcessor::handle_request`
(`src/http/request_handlers/processors/proxy_processor.rs:198`), up to the
network forward: ensure a load balancer exists for `self.id` (a strategy
other than `"round_robin"` yields `500 Internal Server Error`), then
dispatch. -/
def ProxyProcessor.handle_request (p : ProxyProcessor) (reg : LoadBalancerRegistry)
    (original_uri : Str) : ProxyOutcome × LoadBalancerRegistry :=
  match lookupLB reg p.id with
  | none =>
    if p.load_balancing_strategy = str "round_robin" then
      p.dispatch ((p.id, RoundRobin.new p.upstream_servers) :: reg) original_uri
    else
      (ProxyOutcome.respond 500, reg)
  | some _ => p.dispatch reg original_uri

/-- Validation findings of `Binding::validate`
(`src/configuration/binding.rs:25`), one constructor per `errors.push`,
in source order. -/
inductive BindingError where
  | emptyIp : BindingError
  | invalidIp : BindingError
  | portZero : BindingError
  | tlsOnPort80 : BindingError
  | nonTlsOnPort443 : BindingError
  | adminShouldUseTls : BindingError
  | adminWithoutSites : BindingError
deriving DecidableEq, Repr

/-- Error list collected by `Binding::validate`
(`src/configuration/binding.rs:25`).  `parse_ip_ok` abstracts the external
`str::parse::<std::net::IpAddr>` (only consulted when the IP is
non-empty). -/
def Binding.validate_errors (parse_ip_ok : Str → Bool) (b : Binding) : List BindingError :=
  (if b.ip = [] then [BindingError.emptyIp]
   else if !parse_ip_ok b.ip then [BindingError.invalidIp]
   else [])
  ++ (if b.port = 0 then [BindingError.portZero] else [])
  ++ (if b.is_tls && b.port = 80 then [BindingError.tlsOnPort80] else [])
  ++ (if !b.is_tls && b.port = 443 then [BindingError.nonTlsOnPort443] else [])
  ++ (if b.is_admin then
        (if !b.is_tls then [BindingError.adminShouldUseTls] else [])
        ++ (if b.sites = [] then [BindingError.adminWithoutSites] else [])
      else [])

/-- Embeds `Binding::validate`: `Ok(())` iff no error was collected. -/
def Binding.validate (parse_ip_ok : Str → Bool) (b : Binding) :
    Except (List BindingError) Unit :=
  if Binding.validate_errors parse_ip_ok b = [] then Except.ok ()
  else Except.error (Binding.validate_errors parse_ip_ok b)

/-- Observable per-binding actions of `initialize_server`
(`src/grux_http_server.rs:32`), in program order. -/
inductive ServerAction where
  | warnAdminBindingWithoutTls : ServerAction
  | infoStartingAdminServer : ServerAction
  | warnAdminPortalDisabled : ServerAction
  | infoStartingServer : ServerAction
  | startBinding : ServerAction
deriving DecidableEq, Repr

/-- Per-binding body of the loop in `initialize_server`
(`src/grux_http_server.rs:33`): an invalid IP makes the whole function
return `Err` (modelled as `none`); otherwise the binding produces its log
lines and is always started. -/
def process_binding (parse_ip_ok : Str → Bool) (admin_portal_enabled : Bool)
    (b : Binding) : Option (List ServerAction) :=
  if !parse_ip_ok b.ip then none
  else some (
    (if b.is_admin && !b.is_tls then [ServerAction.warnAdminBindingWithoutTls] else [])
    ++ (if b.is_admin then
          (if admin_portal_enabled then [ServerAction.infoStartingAdminServer]
           else [ServerAction.warnAdminPortalDisabled])
        else [ServerAction.infoStartingServer])
    ++ [ServerAction.startBinding])

/-- Embeds `RunningState` (`src/core/running_state.rs:8`), with each component
tagged by the generation (configuration snapshot) it was built from; the
components themselves are opaque to the reload logic. -/
structure RunningStateM where
  access_log_buffer : Nat
  external_request_handlers : Nat
  http_servers : Nat
  file_cache : Nat
deriving DecidableEq, Repr

/-- Embeds `RunningState::new` (`src/core/running_state.rs:16`): every component
is built fresh from the same configuration generation. -/
def RunningStateM.new (generation : Nat) : RunningStateM :=
  ⟨generation, generation, generation, generation⟩

/-- All components of a running state stem from one generation. -/
def RunningStateM.coherent (s : RunningStateM) : Prop :=
  s.access_log_buffer = s.external_request_handlers
  ∧ s.access_log_buffer = s.http_servers
  ∧ s.access_log_buffer = s.file_cache

/-- Atomic steps of `RunningStateManager::set_new_running_state`
(`src/core/running_state_manager.rs:19`), in program order. -/
inductive ReloadStep where
  | acquireWrite : ReloadStep
  | fireTrigger (name : String) : ReloadStep
  | sleepMs (ms : Nat) : ReloadStep
  | assignState (generation : Nat) : ReloadStep
  | releaseWrite : ReloadStep
deriving DecidableEq, Repr

/-- Embeds `set_new_running_state` transcribed step by step
(`src/core/running_state_manager.rs:19`): take the write lock, fire the
`stop_services` trigger, sleep 100 ms, assign `RunningState::new()` to the
locked cell, release the lock at the end of scope. -/
def set_new_running_state_steps (generation : Nat) : List ReloadStep :=
  [ReloadStep.acquireWrite,
   ReloadStep.fireTrigger "stop_services",
   ReloadStep.sleepMs 100,
   ReloadStep.assignState generation,
   ReloadStep.releaseWrite]

/-- State of the `RwLock<RunningState>` cell: whether the writer holds the
lock, and the stored value.  Readers (`get_running_state().read()`) can
observe the cell only while the write lock is not held. -/
structure ManagerState where
  write_locked : Bool
  cell : RunningStateM
deriving DecidableEq, Repr

/-- Effect of one reload step on the lock/cell state. -/
def applyStep (st : ManagerState) (step : ReloadStep) : ManagerState :=
  match step with
  | ReloadStep.acquireWrite => ⟨true, st.cell⟩
  | ReloadStep.fireTrigger _ => st
  | ReloadStep.sleepMs _ => st
  | ReloadStep.assignState g => ⟨st.write_locked, RunningStateM.new g⟩
  | ReloadStep.releaseWrite => ⟨false, st.cell⟩

/-- Rust `Path::has_root` / `is_absolute` on Unix: the path begins with
`/`. -/
def isAbsolutePath (s : Str) : Bool :=
  match s with
  | c :: _ => c = '/'
  | [] => false

/-- Rust `PathBuf::push` for the sequence `path.push(current_dir);
path.push(input)` starting from an empty buffer: an absolute `input`
replaces the buffer, a relative one is appended behind a separator. -/
def pushPath (a b : Str) : Str :=
  if isAbsolutePath b then b
  else if a = [] then b
  else if a.getLast? = some '/' then a ++ b
  else a ++ '/' :: b

/-- Segment filter of the component loop in `get_full_file_path`
(`src/grux_file_util.rs:35`): on Unix, `Path::components` yields `RootDir`
for a leading `/`, drops empty segments (duplicate or trailing separators)
and non-leading `.` segments (`CurDir`; a leading `CurDir` is skipped by
the `match` arm in the source anyway), and yields `ParentDir` for `..`,
which the source also skips.  The surviving `Normal` components are
therefore exactly the `/`-separated segments that are non-empty and
neither `.` nor `..`. -/
def keepSeg (seg : Str) : Bool :=
  !(seg = [] || seg = str "." || seg = str "..")

/-- Printing of the normalized `PathBuf`: components joined by `/`. -/
def joinSlash : List Str → Str
  | [] => []
  | [x] => x
  | x :: y :: rest => x ++ '/' :: joinSlash (y :: rest)

/-- Component normalization plus `to_string_lossy` of `get_full_file_path`
(`src/grux_file_util.rs:33`): root prefix, then the kept segments joined
by `/`. -/
def unixNormalizeSkipDots (full : Str) : Str :=
  (if isAbsolutePath full then ['/'] else [])
    ++ joinSlash ((splitSlash full).filter keepSeg)

/-- Rust `result.contains("//")`. -/
def hasDoubleSlash : Str → Bool
  | c1 :: c2 :: rest => (c1 = '/' && c2 = '/') || hasDoubleSlash (c2 :: rest)
  | _ => false

/-- Rust `result.replace("//", "/")`: one left-to-right, non-overlapping
replacement pass. -/
def collapseStep : Str → Str
  | [] => []
  | [c] => [c]
  | c1 :: c2 :: rest =>
    if c1 = '/' && c2 = '/' then '/' :: collapseStep rest
    else c1 :: collapseStep (c2 :: rest)

/-- The `while result.contains("//")` loop of `get_full_file_path`
(`src/grux_file_util.rs:53`), with fuel: every pass on a string that still
contains `//` shortens it, so `s.length` passes always reach the
fixpoint. -/
def collapseLoop : Nat → Str → Str
  | 0, s => s
  | fuel + 1, s =>
    if hasDoubleSlash s then collapseLoop fuel (collapseStep s) else s

/-- Duplicate-slash removal of `get_full_file_path`. -/
def collapseSlashes (s : Str) : Str :=
  collapseLoop s.length s

/-- Embeds `get_full_file_path` from `src/grux_file_util.rs:22` on Unix, with the
`env::current_dir()` result passed explicitly: expand a relative input
against `cwd`, drop `.` and `..` components (without touching their
preceding components), print, fold backslashes to `/`, collapse duplicate
slashes.  The `#[cached]` memoization wrapper is transparent. -/
def get_full_file_path (cwd input : Str) : Str :=
  let full := if isAbsolutePath input then input else pushPath cwd input
  collapseSlashes (replaceChar '\\' '/' (unixNormalizeSkipDots full))

end Grux

namespace Grux

theorem strStartsWith_append (l t : Str) : strStartsWith (l ++ t) l = true := by
  rw [strStartsWith, List.isPrefixOf_iff_prefix]
  exact List.prefix_append l t

theorem strStartsWith_refl (l : Str) : strStartsWith l l = true := by
  rw [strStartsWith, List.isPrefixOf_iff_prefix]

theorem trimStartSlashes_cons_slash (r : Str) :
    trimStartSlashes ('/' :: r) = trimStartSlashes r := by
  simp [trimStartSlashes, List.dropWhile_cons]

theorem trimStartSlashes_no_slash (r : Str) (h : r.head? ≠ some '/') :
    trimStartSlashes r = r := by
  cases r with
  | nil => rfl
  | cons x xs =>
    have hx : x ≠ '/' := by
      intro hEq; exact h (by simp [hEq])
    simp [trimStartSlashes, List.dropWhile_cons, hx]

theorem find_key_in_filtered_out (t : Str) (l : List (Str × ChallengeEntry)) :
    (l.filter (fun kv => !(kv.1 = t))).find? (fun kv => kv.1 = t) = none := by
  induction l with
  | nil => rfl
  | cons kv rest ih =>
    by_cases h : kv.1 = t
    · simp [List.filter_cons, h, ih]
    · simp [List.filter_cons, h, List.find?_cons, ih]

/-- C9 (corrected): the web-root replacement round-trips when the outer root
`a` is already clean (forward slashes, no trailing slash) and the path is
exactly `a` or extends `a` at a `/` boundary with a relative part that does
not itself start with `/`.  This is the nearest statement that survives the
counterexample `c9_round_trip_counterexample`. -/
theorem c9_round_trip_amended (a b r : Str) (h1 : cleanRoot a = a) :
    replace_web_root_in_path (replace_web_root_in_path a a b) b a = a
    ∧ (r ≠ [] → r.head? ≠ some '/' →
        replace_web_root_in_path (replace_web_root_in_path (a ++ '/' :: r) a b) b a
          = a ++ '/' :: r) := by
  constructor
  · show replace_web_root_in_path (replace_web_root_in_path a a b) b a = a
    have step1 : replace_web_root_in_path a a b = cleanRoot b := by
      simp [replace_web_root_in_path, h1, strStartsWith_refl, List.drop_length,
        trimStartSlashes]
    rw [step1]
    simp [replace_web_root_in_path, strStartsWith_refl, List.drop_length,
      trimStartSlashes, h1]
  · intro hr hhead
    have step1 :
        replace_web_root_in_path (a ++ '/' :: r) a b = cleanRoot b ++ '/' :: r := by
      have hdrop : (a ++ '/' :: r).drop a.length = '/' :: r :=
        List.drop_left a ('/' :: r)
      have htrim : trimStartSlashes ('/' :: r) = r := by
        rw [trimStartSlashes_cons_slash]; exact trimStartSlashes_no_slash r hhead
      simp only [replace_web_root_in_path, h1, strStartsWith_append, if_true]
      rw [hdrop, htrim]
      simp [hr]
    rw [step1]
    have hdrop2 : (cleanRoot b ++ '/' :: r).drop (cleanRoot b).length = '/' :: r :=
      List.drop_left (cleanRoot b) ('/' :: r)
    have htrim2 : trimStartSlashes ('/' :: r) = r := by
      rw [trimStartSlashes_cons_slash]; exact trimStartSlashes_no_slash r hhead
    simp only [replace_web_root_in_path, strStartsWith_append, if_true]
    rw [hdrop2, htrim2]
    simp [hr, h1]

/-- C9 witness: the amended round trip evaluated at `a = "/a"`, `b = "/b"`,
`r = "x"`: it sends `"/a/x"` to `"/b/x"` and back to `"/a/x"`. -/
theorem c9_round_trip_witness :
    replace_web_root_in_path (replace_web_root_in_path (str "/a" ++ '/' :: str "x") (str "/a") (str "/b")) (str "/b") (str "/a")
      = str "/a" ++ '/' :: str "x" :=
  (c9_round_trip_amended (str "/a") (str "/b") (str "x") (by decide)).2
    (by decide) (by decide)

/-- C9 counterexample: `p = "/ax"` starts with `a = "/a"` (Rust
`starts_with` is a plain string-prefix test), yet the round trip through
`b = "/b"` returns `"/a/x"`, not `"/ax"`: the claim as stated is false. -/
theorem c9_round_trip_counterexample :
    strStartsWith (str "/ax") (str "/a") = true
    ∧ replace_web_root_in_path (replace_web_root_in_path (str "/ax") (str "/a") (str "/b")) (str "/b") (str "/a")
        ≠ str "/ax" := by
  decide

/-- C1 (corrected): the gates never normalize; what they guarantee is only
a literal string-prefix test.  If the backslash-folded request path does
not start with the cleaned web root, the synchronous gate returns false;
if the raw request path does not start with the raw base, the async gate
returns false.  (A non-descendant that merely shares a string prefix
passes: see `c1_gate_counterexample`.) -/
theorem c1_gate_amended (wl bl : Str → Bool) (bps : List Str) (base test : Str) :
    (strStartsWith (replaceChar '\\' '/' test) (cleanRoot base) = false →
      check_path_secure_sync wl bl base test = false)
    ∧ (strStartsWith test base = false →
      check_path_secure_async bps base test = false) := by
  constructor
  · intro h
    simp [check_path_secure_sync, h]
  · intro h
    simp [check_path_secure_async, h]

/-- C1 witness: for `base = "/var/www"`, `test = "/etc/passwd"` the prefix
test fails and both gates reject. -/
theorem c1_gate_witness :
    check_path_secure_sync (fun _ => false) (fun _ => false) (str "/var/www") (str "/etc/passwd") = false
    ∧ check_path_secure_async [] (str "/var/www") (str "/etc/passwd") = false :=
  ⟨(c1_gate_amended (fun _ => false) (fun _ => false) [] (str "/var/www") (str "/etc/passwd")).1 (by decide),
   (c1_gate_amended (fun _ => false) (fun _ => false) [] (str "/var/www") (str "/etc/passwd")).2 (by decide)⟩

/-- C1 counterexample: `"/var/wwwx/i.html"` does not normalize to a
descendant of `"/var/www"`, yet both gates accept it (with no blocked or
whitelisted patterns configured), because they only compare string
prefixes: the claim as stated is false. -/
theorem c1_gate_counterexample :
    specIsDescendant (str "/var/www") (str "/var/wwwx/i.html") = false
    ∧ check_path_secure_sync (fun _ => false) (fun _ => false) (str "/var/www") (str "/var/wwwx/i.html") = true
    ∧ check_path_secure_async [] (str "/var/www") (str "/var/wwwx/i.html") = true := by
  decide


/-- C3 (corrected): after `add_challenge(t, k)`, looking the challenge up
through the HTTP path within 3600 seconds returns `Some(k)` provided the
token is non-empty and contains no `/` (otherwise `try_handle_challenge`
refuses the path: see `c3_challenge_store_counterexample`); after
`remove_challenge(t)` the same lookup returns `None` again. -/
theorem c3_challenge_store_amended (s : AcmeHttp01ChallengeStore)
    (t k : Str) (now queryTime : Nat)
    (h1 : t ≠ []) (h2 : t.contains '/' = false)
    (h3 : queryTime - now ≤ 3600) :
    (s.add_challenge t k now).try_handle_challenge (ACME_CHALLENGE_PATH ++ t) queryTime = some k
    ∧ ((s.add_challenge t k now).remove_challenge t).try_handle_challenge (ACME_CHALLENGE_PATH ++ t) queryTime = none := by
  have hextract :
      AcmeHttp01ChallengeStore.extract_token_from_path (ACME_CHALLENGE_PATH ++ t) = some t := by
    simp [AcmeHttp01ChallengeStore.extract_token_from_path, strStartsWith_append,
      List.drop_left]
  have hempty : t.isEmpty = false := by
    cases t with
    | nil => exact absurd rfl h1
    | cons c cs => rfl
  have hnotexp : (ChallengeEntry.mk k now).is_expired queryTime = false := by
    simp only [ChallengeEntry.is_expired, CHALLENGE_EXPIRY_SECONDS,
      decide_eq_false_iff_not, not_lt]
    omega
  have h2' : '/' ∉ t := by simpa using h2
  have hfind := find_key_in_filtered_out t
    ((t, ChallengeEntry.mk k now) :: s.challenges.filter (fun kv => !(kv.1 = t)))
  constructor
  · simp [AcmeHttp01ChallengeStore.try_handle_challenge, hextract, hempty, h2',
      AcmeHttp01ChallengeStore.get_key_authorization,
      AcmeHttp01ChallengeStore.add_challenge, List.find?_cons, hnotexp]
  · simp [AcmeHttp01ChallengeStore.try_handle_challenge, hextract, hempty, h2',
      AcmeHttp01ChallengeStore.get_key_authorization,
      AcmeHttp01ChallengeStore.remove_challenge,
      AcmeHttp01ChallengeStore.add_challenge, hfind]
    intro a b hab
    exact absurd (List.find?_some hab) (by simp)

/-- C3 witness: the amended property evaluated for token `"abc"`, key
authorization `"abc.thumb"`, added at time 0 and queried at time 10. -/
theorem c3_challenge_store_witness :
    ((⟨[]⟩ : AcmeHttp01ChallengeStore).add_challenge (str "abc") (str "abc.thumb") 0).try_handle_challenge
        (ACME_CHALLENGE_PATH ++ str "abc") 10 = some (str "abc.thumb")
    ∧ (((⟨[]⟩ : AcmeHttp01ChallengeStore).add_challenge (str "abc") (str "abc.thumb") 0).remove_challenge
        (str "abc")).try_handle_challenge (ACME_CHALLENGE_PATH ++ str "abc") 10 = none :=
  c3_challenge_store_amended ⟨[]⟩ (str "abc") (str "abc.thumb") 0 10
    (by decide) (by decide) (by decide)

/-- C3 counterexample: for the token `"a/b"` (which `add_challenge` happily
stores), `try_handle_challenge` on the challenge path returns `None`
immediately, because tokens containing `/` are rejected: the claim as
stated, for every token, is false. -/
theorem c3_challenge_store_counterexample :
    ((⟨[]⟩ : AcmeHttp01ChallengeStore).add_challenge (str "a/b") (str "a/b.thumb") 0).try_handle_challenge
      (ACME_CHALLENGE_PATH ++ str "a/b") 0 ≠ some (str "a/b.thumb") := by
  decide


/-- C2 (confirmed): a ClientHello advertising the `acme-tls/1` ALPN is
answered exclusively by the ACME resolver when one is configured and gets
no certificate otherwise, and the answer is unchanged under any manual SNI
map and any fallback certificate. -/
theorem c2_acme_alpn_routing (r : UnifiedCertResolver) (ch : ClientHello)
    (h : ch.is_acme_challenge = true) :
    (∀ acme, r.acme_resolver = some acme → r.resolve ch = acme ch)
    ∧ (r.acme_resolver = none → r.resolve ch = none)
    ∧ (∀ sni fb,
        ({ r with sni_resolver := sni, fallback_cert := fb } : UnifiedCertResolver).resolve ch
          = r.resolve ch) := by
  refine ⟨?_, ?_, ?_⟩
  · intro acme hacme
    simp [UnifiedCertResolver.resolve, h, hacme]
  · intro hnone
    simp [UnifiedCertResolver.resolve, h, hnone]
  · intro sni fb
    cases hr : r.acme_resolver with
    | none => simp [UnifiedCertResolver.resolve, h, hr]
    | some acme => simp [UnifiedCertResolver.resolve, h, hr]

/-- C2 witness: a concrete `acme-tls/1` hello against a resolver with an
ACME resolver that returns certificate 7, an SNI map that would return 1
and fallback 2: the answer is 7 from the ACME resolver, none without it,
and ignores SNI map and fallback. -/
theorem c2_acme_alpn_routing_witness :
    ({ acme_resolver := some (fun _ => some 7), sni_resolver := fun _ => some 1,
       fallback_cert := some 2, acme_domains := [] } : UnifiedCertResolver).resolve
      ⟨true, some (str "example.com")⟩ = some 7 :=
  (c2_acme_alpn_routing
    { acme_resolver := some (fun _ => some 7), sni_resolver := fun _ => some 1,
      fallback_cert := some 2, acme_domains := [] }
    ⟨true, some (str "example.com")⟩ rfl).1 (fun _ => some 7) rfl


end Grux

namespace Grux

theorem acmeHostnameKept_eq_specEligible (h : Str) :
    acmeHostnameKept h = specEligibleHostname h := by
  simp only [acmeHostnameKept, specEligibleHostname]
  split_ifs with h1 h2 h3 h4
  · simp only [Bool.or_eq_true, decide_eq_true_eq] at h1
    rcases h1 with h1 | h1 <;> simp_all
  · simp_all
  · simp_all
  · simp_all
  · simp_all

theorem collectAcmeDomains_eq_nil_iff (c : Config) :
    collectAcmeDomains c = [] ↔
      ∀ b ∈ c.bindings, b.is_tls = true →
        ∀ s ∈ get_sites_for_binding b, s.is_enabled = true → s.tls_automatic_enabled = true →
          ∀ h ∈ s.hostnames, specEligibleHostname (toLowerStr (rustTrim h)) = false := by
  rw [collectAcmeDomains, List.flatMap_eq_nil_iff]
  constructor
  · intro H b hb htls s hs hen hauto h hh
    have h1 := H b (List.mem_filter.mpr ⟨hb, htls⟩)
    rw [List.flatMap_eq_nil_iff] at h1
    have h2 := h1 s (List.mem_filter.mpr ⟨hs, by simp [hen, hauto]⟩)
    rw [List.filter_eq_nil_iff] at h2
    have h3 := h2 _ (List.mem_map_of_mem (fun h => toLowerStr (rustTrim h)) hh)
    rw [acmeHostnameKept_eq_specEligible] at h3
    exact Bool.not_eq_true _ ▸ (by simpa using h3)
  · intro H b hb
    rw [List.flatMap_eq_nil_iff]
    intro s hs
    rw [List.filter_eq_nil_iff]
    intro x hx
    obtain ⟨hbmem, hbtls⟩ := List.mem_filter.mp hb
    obtain ⟨hsmem, hsprop⟩ := List.mem_filter.mp hs
    obtain ⟨h, hh, rfl⟩ := List.mem_map.mp hx
    have hen : s.is_enabled = true := by
      have := hsprop; simp at this; exact this.1
    have hauto : s.tls_automatic_enabled = true := by
      have := hsprop; simp at this; exact this.2
    have := H b hbmem hbtls s hsmem hen hauto h hh
    rw [acmeHostnameKept_eq_specEligible]
    simp [this]

end Grux

namespace Grux

/-- C4 (confirmed): with the cache directory creatable, the shared ACME
manager is absent iff the account email is empty after trimming or no
enabled site with `tls_automatic_enabled` on a TLS binding contributes an
eligible hostname; eligibility is stated in the claim's own terms.  Since
config hostnames are stored trimmed and lowercased (spec data model), the
hypothesis `hnorm` assumes exactly that. -/
theorem c4_acme_manager_absence (c : Config)
    (hnorm : ∀ b ∈ c.bindings, ∀ s ∈ b.sites, ∀ h ∈ s.hostnames,
      rustTrim h = h ∧ toLowerStr h = h) :
    create_shared_acme_manager true c = AcmeManagerResult.disabled ↔
      (rustTrim c.tls_settings.account_email = [] ∨
        ∀ b ∈ c.bindings, b.is_tls = true →
          ∀ s ∈ get_sites_for_binding b, s.is_enabled = true → s.tls_automatic_enabled = true →
            ∀ h ∈ s.hostnames, specEligibleHostname h = false) := by
  have hdom : collectAcmeDomains c = [] ↔
      (∀ b ∈ c.bindings, b.is_tls = true →
        ∀ s ∈ get_sites_for_binding b, s.is_enabled = true → s.tls_automatic_enabled = true →
          ∀ h ∈ s.hostnames, specEligibleHostname h = false) := by
    rw [collectAcmeDomains_eq_nil_iff]
    constructor
    · intro H b hb htls s hs hen hauto h hh
      have hsmem : s ∈ b.sites := (List.mem_filter.mp hs).1
      obtain ⟨ht, hl⟩ := hnorm b hb s hsmem h hh
      have := H b hb htls s hs hen hauto h hh
      rwa [ht, hl] at this
    · intro H b hb htls s hs hen hauto h hh
      have hsmem : s ∈ b.sites := (List.mem_filter.mp hs).1
      obtain ⟨ht, hl⟩ := hnorm b hb s hsmem h hh
      rw [ht, hl]
      exact H b hb htls s hs hen hauto h hh
  by_cases hem : rustTrim c.tls_settings.account_email = []
  · simp [create_shared_acme_manager, hem]
  · by_cases hd : collectAcmeDomains c = []
    · have hL : create_shared_acme_manager true c = AcmeManagerResult.disabled := by
        simp [create_shared_acme_manager, hem, hd]
      exact iff_of_true hL (Or.inr (hdom.mp hd))
    · have hL : create_shared_acme_manager true c
          = AcmeManagerResult.manager (collectAcmeDomains c) := by
        simp [create_shared_acme_manager, hem, hd]
      have hne : create_shared_acme_manager true c ≠ AcmeManagerResult.disabled := by
        rw [hL]; simp
      refine iff_of_false hne ?_
      rintro (h | h)
      · exact hem h
      · exact hd (hdom.mpr h)

/-- C4 witness: the equivalence evaluated at a configuration with email
`"admin@example.com"` and one TLS binding carrying an enabled,
ACME-enabled site for `"example.com"`: both sides are false (the manager
exists). -/
theorem c4_acme_manager_absence_witness :
    create_shared_acme_manager true
        ⟨⟨str "admin@example.com", str "", false⟩,
         [⟨1, str "0.0.0.0", 443, false, true, [⟨1, [str "example.com"], false, true, true⟩]⟩]⟩
        = AcmeManagerResult.disabled ↔
      (rustTrim (⟨⟨str "admin@example.com", str "", false⟩,
         [⟨1, str "0.0.0.0", 443, false, true, [⟨1, [str "example.com"], false, true, true⟩]⟩]⟩ : Config).tls_settings.account_email = [] ∨
        ∀ b ∈ (⟨⟨str "admin@example.com", str "", false⟩,
         [⟨1, str "0.0.0.0", 443, false, true, [⟨1, [str "example.com"], false, true, true⟩]⟩]⟩ : Config).bindings, b.is_tls = true →
          ∀ s ∈ get_sites_for_binding b, s.is_enabled = true → s.tls_automatic_enabled = true →
            ∀ h ∈ s.hostnames, specEligibleHostname h = false) :=
  c4_acme_manager_absence
    ⟨⟨str "admin@example.com", str "", false⟩,
     [⟨1, str "0.0.0.0", 443, false, true, [⟨1, [str "example.com"], false, true, true⟩]⟩]⟩
    (by decide)

end Grux

namespace Grux

/-- C5 (confirmed): in any registry state that does not yet hold a balancer
for this processor, a strategy other than `"round_robin"` makes
`handle_request` answer `500 Internal Server Error`; and whenever the
balancer yields no upstream server (`get_next_server` returns `None`,
which happens exactly for an empty server list, whether freshly created
from an empty `upstream_servers` or already registered), the answer is
`502 Bad Gateway`. -/
theorem c5_proxy_status_routing (p : ProxyProcessor) (reg : LoadBalancerRegistry)
    (uri : Str) :
    (lookupLB reg p.id = none → p.load_balancing_strategy ≠ str "round_robin" →
      (p.handle_request reg uri).1 = ProxyOutcome.respond 500)
    ∧ (lookupLB reg p.id = none → p.load_balancing_strategy = str "round_robin" →
        p.upstream_servers = [] →
        (p.handle_request reg uri).1 = ProxyOutcome.respond 502)
    ∧ (∀ rr, lookupLB reg p.id = some rr → rr.servers = [] →
        (p.handle_request reg uri).1 = ProxyOutcome.respond 502) := by
  refine ⟨?_, ?_, ?_⟩
  · intro h1 h2
    simp [ProxyProcessor.handle_request, h1, h2]
  · intro h1 h2 h3
    simp only [ProxyProcessor.handle_request, h1, h2, h3, if_pos rfl]
    simp [ProxyProcessor.dispatch, lookupLB, List.find?_cons, RoundRobin.new,
      RoundRobin.get_next_server]
  · intro rr h1 h2
    simp [ProxyProcessor.handle_request, h1, ProxyProcessor.dispatch,
      RoundRobin.get_next_server, h2]

/-- C5 witness: a processor configured with strategy `"weighted"` and one
upstream, against an empty registry, answers `500`; the same processor
with `"round_robin"` and no upstreams answers `502`. -/
theorem c5_proxy_status_routing_witness :
    ((ProxyProcessor.mk (str "p1") (str "http") [str "http://u1:80"] (str "weighted")
        30 (str "/health") [] false (str "")).handle_request [] (str "/x")).1
      = ProxyOutcome.respond 500
    ∧ ((ProxyProcessor.mk (str "p1") (str "http") [] (str "round_robin")
        30 (str "/health") [] false (str "")).handle_request [] (str "/x")).1
      = ProxyOutcome.respond 502 :=
  ⟨(c5_proxy_status_routing
      (ProxyProcessor.mk (str "p1") (str "http") [str "http://u1:80"] (str "weighted")
        30 (str "/health") [] false (str "")) [] (str "/x")).1 rfl (by decide),
   (c5_proxy_status_routing
      (ProxyProcessor.mk (str "p1") (str "http") [] (str "round_robin")
        30 (str "/health") [] false (str "")) [] (str "/x")).2.1 rfl (by decide) rfl⟩

/-- C6 (code bug): a case-insensitive rewrite rule `from = "x"`, `to = "y"`
applied to `"ẞx"` panics.  `"ẞx".to_lowercase()` is `"ßx"`, one byte
shorter, yet `replace_case_insensitive` slices it at byte offsets computed
on the original string: `&s_lower[0..1]` falls inside the two-byte `ß` and
Rust aborts with a char-boundary panic, where the claim promises a
byte-for-byte faithful, panic-free replacement.  The same input also makes
the whole rewrite pipeline of the processor panic. -/
theorem c6_case_insensitive_rewrite_panics :
    replace_case_insensitive (str "ẞx") (str "x") (str "y") = none
    ∧ (ProxyProcessor.mk (str "p1") (str "http") [] (str "round_robin") 30
        (str "/health") [ProxyProcessorUrlRewrite.mk (str "x") (str "y") true]
        false (str "")).apply_url_rewrites (str "ẞx") = none := by
  constructor
  · rfl
  · rfl

end Grux

namespace Grux

/-- C7 (corrected): the server loop does accept an admin binding without
TLS — it logs a warning and still starts the binding.  But the claim's
second half fails: `Binding::validate` pushes
"Admin binding should use TLS for security" as an error, so configuration
validation does reject such a binding (see
`c7_admin_non_tls_counterexample`). -/
theorem c7_admin_non_tls_amended (parse_ip_ok : Str → Bool)
    (admin_portal_enabled : Bool) (b : Binding)
    (h1 : b.is_admin = true) (h2 : b.is_tls = false) (h3 : parse_ip_ok b.ip = true) :
    process_binding parse_ip_ok admin_portal_enabled b
      = some (ServerAction.warnAdminBindingWithoutTls ::
          (if admin_portal_enabled then [ServerAction.infoStartingAdminServer]
           else [ServerAction.warnAdminPortalDisabled])
          ++ [ServerAction.startBinding])
    ∧ BindingError.adminShouldUseTls ∈ Binding.validate_errors parse_ip_ok b
    ∧ Binding.validate parse_ip_ok b ≠ Except.ok () := by
  have hmem : BindingError.adminShouldUseTls ∈ Binding.validate_errors parse_ip_ok b := by
    simp [Binding.validate_errors, h1, h2]
  refine ⟨?_, hmem, ?_⟩
  · simp [process_binding, h1, h2, h3]
  · have hne : Binding.validate_errors parse_ip_ok b ≠ [] := by
      intro hnil
      rw [hnil] at hmem
      simp at hmem
    simp [Binding.validate, hne]

/-- C7 witness: the admin binding `127.0.0.1:8080` without TLS is flagged
by `validate` yet started with a warning by the server loop. -/
theorem c7_admin_non_tls_witness :
    BindingError.adminShouldUseTls ∈
      Binding.validate_errors (fun s => s = str "127.0.0.1")
        (Binding.mk 1 (str "127.0.0.1") 8080 true false
          [Site.mk 1 [str "admin.local"] false true false]) :=
  (c7_admin_non_tls_amended (fun s => s = str "127.0.0.1") true
    (Binding.mk 1 (str "127.0.0.1") 8080 true false
      [Site.mk 1 [str "admin.local"] false true false])
    rfl rfl (by decide)).2.1

/-- C7 counterexample: an otherwise flawless non-TLS admin binding
(valid IP, non-zero port away from 80/443, one site) is rejected by
`Binding::validate` with exactly the admin-TLS finding, so validation does
reject a binding merely because it is admin and not TLS: the claim's
validation half is false. -/
theorem c7_admin_non_tls_counterexample :
    Binding.validate (fun s => s = str "127.0.0.1")
        (Binding.mk 1 (str "127.0.0.1") 8080 true false
          [Site.mk 1 [str "admin.local"] false true false])
      = Except.error [BindingError.adminShouldUseTls] := by
  rfl

end Grux

namespace Grux

/-- C8 (confirmed, over a lock-step trace model): every call to
`set_new_running_state` fires `stop_services`, then sleeps 100 ms, then
constructs and assigns the new state, in that order; and with the write
lock held from before the trigger to after the assignment, a reader of the
`RwLock` cell only ever observes the complete old state or the complete
new one, never a mixture, and afterwards the cell holds the new state. -/
theorem c8_reload_order_and_atomicity (old : RunningStateM) (generation : Nat) :
    (∃ pre mid1 mid2 post, set_new_running_state_steps generation
      = pre ++ ReloadStep.fireTrigger "stop_services" ::
          (mid1 ++ ReloadStep.sleepMs 100 ::
            (mid2 ++ ReloadStep.assignState generation :: post)))
    ∧ (∀ st ∈ List.scanl applyStep ⟨false, old⟩ (set_new_running_state_steps generation),
        st.write_locked = false →
          st.cell = old ∨ st.cell = RunningStateM.new generation)
    ∧ (∀ st ∈ List.scanl applyStep ⟨false, old⟩ (set_new_running_state_steps generation),
        st.write_locked = false → st.cell.coherent ∨ st.cell = old)
    ∧ (List.scanl applyStep ⟨false, old⟩ (set_new_running_state_steps generation)).getLast?
        = some ⟨false, RunningStateM.new generation⟩ := by
  refine ⟨⟨[ReloadStep.acquireWrite], [], [], [ReloadStep.releaseWrite], rfl⟩, ?_, ?_, ?_⟩
  · intro st hst hunlocked
    simp [set_new_running_state_steps, List.scanl, applyStep] at hst
    rcases hst with rfl | rfl | rfl | rfl | rfl | rfl <;> simp_all
  · intro st hst hunlocked
    simp [set_new_running_state_steps, List.scanl, applyStep] at hst
    rcases hst with rfl | rfl | rfl | rfl | rfl | rfl <;>
      simp_all [RunningStateM.coherent, RunningStateM.new]
  · simp [set_new_running_state_steps, List.scanl, applyStep]

/-- C8 witness: the reload trace evaluated from a concrete coherent state
of generation 0 to generation 1: the final cell is the complete new
state. -/
theorem c8_reload_order_and_atomicity_witness :
    (List.scanl applyStep ⟨false, RunningStateM.new 0⟩ (set_new_running_state_steps 1)).getLast?
      = some ⟨false, RunningStateM.new 1⟩ :=
  (c8_reload_order_and_atomicity (RunningStateM.new 0) 1).2.2.2

end Grux

namespace Grux

theorem length_collapseStep_le : ∀ s : Str, (collapseStep s).length ≤ s.length
  | [] => by simp [collapseStep]
  | [c] => by simp [collapseStep]
  | c1 :: c2 :: rest => by
    rw [collapseStep]
    split_ifs with h
    · have := length_collapseStep_le rest
      simp only [List.length_cons]
      omega
    · have := length_collapseStep_le (c2 :: rest)
      simp only [List.length_cons] at this ⊢
      omega

theorem length_collapseStep_lt : ∀ s : Str, hasDoubleSlash s = true →
    (collapseStep s).length < s.length
  | [] => by intro h; simp [hasDoubleSlash] at h
  | [c] => by intro h; simp [hasDoubleSlash] at h
  | c1 :: c2 :: rest => by
    intro h
    rw [collapseStep]
    split_ifs with hc
    · have := length_collapseStep_le rest
      simp only [List.length_cons]
      omega
    · have h' : hasDoubleSlash (c2 :: rest) = true := by
        rw [hasDoubleSlash] at h
        simp only [hc, Bool.false_or] at h
        exact h
      have := length_collapseStep_lt (c2 :: rest) h'
      simp only [List.length_cons] at this ⊢
      omega

theorem collapseLoop_no_ds : ∀ (fuel : Nat) (s : Str), s.length ≤ fuel →
    hasDoubleSlash (collapseLoop fuel s) = false
  | 0, s => by
    intro h
    have hnil : s = [] := List.eq_nil_of_length_eq_zero (by omega)
    subst hnil
    simp [collapseLoop, hasDoubleSlash]
  | fuel + 1, s => by
    intro h
    rw [collapseLoop]
    split_ifs with hds
    · exact collapseLoop_no_ds fuel (collapseStep s)
        (by have := length_collapseStep_lt s hds; omega)
    · simpa using hds

theorem collapseLoop_id (fuel : Nat) (s : Str) (h : hasDoubleSlash s = false) :
    collapseLoop fuel s = s := by
  cases fuel with
  | zero => rfl
  | succ fuel => rw [collapseLoop]; simp [h]

theorem mem_collapseStep : ∀ (s : Str) (c : Char), c ∈ collapseStep s → c ∈ s
  | [], c => by simp [collapseStep]
  | [d], c => by simp [collapseStep]
  | c1 :: c2 :: rest, c => by
    rw [collapseStep]
    split_ifs with hc
    · intro hm
      rcases List.mem_cons.mp hm with rfl | hm
      · simp only [Bool.and_eq_true, decide_eq_true_eq] at hc
        simp [hc.1]
      · exact List.mem_cons_of_mem _ (List.mem_cons_of_mem _ (mem_collapseStep rest c hm))
    · intro hm
      rcases List.mem_cons.mp hm with rfl | hm
      · exact List.mem_cons_self ..
      · exact List.mem_cons_of_mem _ (mem_collapseStep (c2 :: rest) c hm)

theorem mem_collapseLoop : ∀ (fuel : Nat) (s : Str) (c : Char),
    c ∈ collapseLoop fuel s → c ∈ s
  | 0, s, c => by intro h; simpa [collapseLoop] using h
  | fuel + 1, s, c => by
    rw [collapseLoop]
    split_ifs with hds
    · intro h
      exact mem_collapseStep s c (mem_collapseLoop fuel (collapseStep s) c h)
    · intro h; exact h

theorem mem_replaceChar_ne_old (o n : Char) (hno : n ≠ o) (s : Str) :
    ∀ c ∈ replaceChar o n s, c ≠ o := by
  intro c hc
  simp only [replaceChar, List.mem_map] at hc
  obtain ⟨x, hx, hfx⟩ := hc
  by_cases hxo : x = o
  · rw [if_pos hxo] at hfx
    exact hfx ▸ hno
  · rw [if_neg hxo] at hfx
    exact hfx ▸ hxo

theorem replaceChar_id (o n : Char) (s : Str) (h : ∀ c ∈ s, c ≠ o) :
    replaceChar o n s = s := by
  rw [replaceChar]
  rw [List.map_congr_left (fun c hc => if_neg (h c hc))]
  exact List.map_id s

end Grux

namespace Grux

theorem splitSlash_ne_nil : ∀ s : Str, splitSlash s ≠ []
  | [] => by simp [splitSlash]
  | c :: rest => by
    rw [splitSlash]
    rcases h : splitSlash rest with _ | ⟨h1, t⟩
    · simp
    · split_ifs <;> simp

theorem splitSlash_cons_slash (s : Str) : splitSlash ('/' :: s) = [] :: splitSlash s := by
  rw [splitSlash]
  rcases h : splitSlash s with _ | ⟨h1, t⟩
  · exact absurd h (splitSlash_ne_nil s)
  · simp

theorem splitSlash_cons_nosep (c : Char) (s : Str) (hc : c ≠ '/')
    (h1 : Str) (t : List Str) (hs : splitSlash s = h1 :: t) :
    splitSlash (c :: s) = (c :: h1) :: t := by
  rw [splitSlash, hs]
  simp [hc]

theorem splitSlash_prepend : ∀ (x s : Str), '/' ∉ x →
    ∀ (h1 : Str) (t : List Str), splitSlash s = h1 :: t →
      splitSlash (x ++ s) = (x ++ h1) :: t
  | [], s => by
    intro _ h1 t hs
    simpa using hs
  | c :: x', s => by
    intro hx h1 t hs
    have hc : c ≠ '/' := fun h => hx (h ▸ List.mem_cons_self ..)
    have hx' : '/' ∉ x' := fun h => hx (List.mem_cons_of_mem _ h)
    have ih := splitSlash_prepend x' s hx' h1 t hs
    simpa using splitSlash_cons_nosep c (x' ++ s) hc (x' ++ h1) t ih

theorem splitSlash_single (x : Str) (hx : '/' ∉ x) : splitSlash x = [x] := by
  have := splitSlash_prepend x [] hx [] [] rfl
  simpa using this

theorem splitSlash_joinSlash : ∀ (comps : List Str), comps ≠ [] →
    (∀ x ∈ comps, '/' ∉ x) → splitSlash (joinSlash comps) = comps
  | [], h, _ => absurd rfl h
  | [x], _, hall => by
    rw [joinSlash]
    exact splitSlash_single x (hall x (List.mem_singleton.mpr rfl))
  | x :: y :: rest, _, hall => by
    rw [joinSlash]
    have hrest := splitSlash_joinSlash (y :: rest) (by simp)
      (fun z hz => hall z (List.mem_cons_of_mem _ hz))
    have hslash : splitSlash ('/' :: joinSlash (y :: rest)) = [] :: y :: rest := by
      rw [splitSlash_cons_slash, hrest]
    have := splitSlash_prepend x ('/' :: joinSlash (y :: rest))
      (hall x (List.mem_cons_self ..)) [] (y :: rest) hslash
    simpa using this

theorem splitSlash_seg_no_slash : ∀ (s : Str), ∀ seg ∈ splitSlash s, '/' ∉ seg
  | [] => by simp [splitSlash]
  | c :: rest => by
    intro seg hseg
    by_cases hc : c = '/'
    · subst hc
      rw [splitSlash_cons_slash] at hseg
      rcases List.mem_cons.mp hseg with rfl | hseg
      · simp
      · exact splitSlash_seg_no_slash rest seg hseg
    · rcases h : splitSlash rest with _ | ⟨h1, t⟩
      · exact absurd h (splitSlash_ne_nil rest)
      · rw [splitSlash_cons_nosep c rest hc h1 t h] at hseg
        rcases List.mem_cons.mp hseg with rfl | hseg
        · intro hmem
          rcases List.mem_cons.mp hmem with heq | hmem
          · exact hc heq.symm
          · exact splitSlash_seg_no_slash rest h1 (h ▸ List.mem_cons_self ..) hmem
        · exact splitSlash_seg_no_slash rest seg (h ▸ List.mem_cons_of_mem _ hseg)

theorem splitSlash_seg_chars : ∀ (s : Str), ∀ seg ∈ splitSlash s, ∀ c ∈ seg, c ∈ s
  | [] => by simp [splitSlash]
  | d :: rest => by
    intro seg hseg c hc
    by_cases hd : d = '/'
    · subst hd
      rw [splitSlash_cons_slash] at hseg
      rcases List.mem_cons.mp hseg with rfl | hseg
      · simp at hc
      · exact List.mem_cons_of_mem _ (splitSlash_seg_chars rest seg hseg c hc)
    · rcases h : splitSlash rest with _ | ⟨h1, t⟩
      · exact absurd h (splitSlash_ne_nil rest)
      · rw [splitSlash_cons_nosep d rest hd h1 t h] at hseg
        rcases List.mem_cons.mp hseg with rfl | hseg
        · rcases List.mem_cons.mp hc with rfl | hc
          · exact List.mem_cons_self ..
          · exact List.mem_cons_of_mem _
              (splitSlash_seg_chars rest h1 (h ▸ List.mem_cons_self ..) c hc)
        · exact List.mem_cons_of_mem _
            (splitSlash_seg_chars rest seg (h ▸ List.mem_cons_of_mem _ hseg) c hc)

theorem mem_joinSlash : ∀ (comps : List Str) (c : Char), c ∈ joinSlash comps →
    c = '/' ∨ ∃ x ∈ comps, c ∈ x
  | [], c => by simp [joinSlash]
  | [x], c => by
    intro h
    right
    exact ⟨x, List.mem_singleton.mpr rfl, by simpa [joinSlash] using h⟩
  | x :: y :: rest, c => by
    intro h
    rw [joinSlash] at h
    rcases List.mem_append.mp h with h | h
    · exact Or.inr ⟨x, List.mem_cons_self .., h⟩
    · rcases List.mem_cons.mp h with rfl | h
      · exact Or.inl rfl
      · rcases mem_joinSlash (y :: rest) c h with h | ⟨z, hz, hcz⟩
        · exact Or.inl h
        · exact Or.inr ⟨z, List.mem_cons_of_mem _ hz, hcz⟩

theorem joinSlash_head : ∀ (y : Str) (rest : List Str), y ≠ [] →
    (joinSlash (y :: rest)).head? = y.head?
  | y, [], _ => by rw [joinSlash]
  | y, z :: rest', hy => by
    rw [joinSlash]
    cases y with
    | nil => exact absurd rfl hy
    | cons c y' => simp

end Grux

namespace Grux

theorem hasDoubleSlash_cons (c : Char) (s : Str) (hc : c ≠ '/') :
    hasDoubleSlash (c :: s) = hasDoubleSlash s := by
  cases s with
  | nil => simp [hasDoubleSlash]
  | cons d t =>
    rw [hasDoubleSlash]
    simp [hc]

theorem hasDoubleSlash_append_left : ∀ (x s : Str), '/' ∉ x →
    hasDoubleSlash (x ++ s) = hasDoubleSlash s
  | [], s => by simp
  | c :: x', s => by
    intro hx
    have hc : c ≠ '/' := fun h => hx (h ▸ List.mem_cons_self ..)
    have hx' : '/' ∉ x' := fun h => hx (List.mem_cons_of_mem _ h)
    rw [List.cons_append, hasDoubleSlash_cons c _ hc, hasDoubleSlash_append_left x' s hx']

theorem hasDoubleSlash_no_slash (x : Str) (hx : '/' ∉ x) : hasDoubleSlash x = false := by
  have := hasDoubleSlash_append_left x [] hx
  simpa [hasDoubleSlash] using this

theorem joinSlash_no_ds : ∀ (comps : List Str),
    (∀ x ∈ comps, x ≠ [] ∧ '/' ∉ x) → hasDoubleSlash (joinSlash comps) = false
  | [] => by intro; simp [joinSlash, hasDoubleSlash]
  | [x] => by
    intro hall
    rw [joinSlash]
    exact hasDoubleSlash_no_slash x (hall x (List.mem_singleton.mpr rfl)).2
  | x :: y :: rest => by
    intro hall
    rw [joinSlash]
    rw [hasDoubleSlash_append_left x _ (hall x (List.mem_cons_self ..)).2]
    have hyne : y ≠ [] := (hall y (List.mem_cons_of_mem _ (List.mem_cons_self ..))).1
    have hyns : '/' ∉ y := (hall y (List.mem_cons_of_mem _ (List.mem_cons_self ..))).2
    have hhead := joinSlash_head y rest hyne
    have hrec := joinSlash_no_ds (y :: rest)
      (fun z hz => hall z (List.mem_cons_of_mem _ hz))
    cases hj : joinSlash (y :: rest) with
    | nil => simp [hasDoubleSlash]
    | cons d t =>
      have hd : d ≠ '/' := by
        rw [hj] at hhead
        cases y with
        | nil => exact absurd rfl hyne
        | cons e y' =>
          have : d = e := by simpa using hhead
          subst this
          exact fun h => hyns (h ▸ List.mem_cons_self ..)
      rw [hj] at hrec
      rw [hasDoubleSlash]
      simp [hd, hrec]

theorem keepSeg_props (seg : Str) (h : keepSeg seg = true) :
    seg ≠ [] ∧ seg ≠ str "." ∧ seg ≠ str ".." := by
  simp only [keepSeg, Bool.not_eq_true', Bool.or_eq_false_iff, decide_eq_false_iff_not] at h
  exact ⟨h.1.1, h.1.2, h.2⟩

theorem unixNormalizeSkipDots_no_ds (full : Str) :
    hasDoubleSlash (unixNormalizeSkipDots full) = false := by
  rw [unixNormalizeSkipDots]
  have hall : ∀ x ∈ (splitSlash full).filter keepSeg, x ≠ [] ∧ '/' ∉ x := by
    intro x hx
    obtain ⟨hmem, hkeep⟩ := List.mem_filter.mp hx
    exact ⟨(keepSeg_props x hkeep).1, splitSlash_seg_no_slash full x hmem⟩
  have hjoin := joinSlash_no_ds _ hall
  split_ifs with hroot
  · cases hj : joinSlash ((splitSlash full).filter keepSeg) with
    | nil => simp [hasDoubleSlash]
    | cons d t =>
      have hd : d ≠ '/' := by
        cases hc : (splitSlash full).filter keepSeg with
        | nil => rw [hc] at hj; simp [joinSlash] at hj
        | cons y rest =>
          have hyne : y ≠ [] := (hall y (hc ▸ List.mem_cons_self ..)).1
          have hyns : '/' ∉ y := (hall y (hc ▸ List.mem_cons_self ..)).2
          have hhead := joinSlash_head y rest hyne
          rw [← hc, hj] at hhead
          cases y with
          | nil => exact absurd rfl hyne
          | cons e y' =>
            have : d = e := by simpa using hhead
            subst this
            exact fun h => hyns (h ▸ List.mem_cons_self ..)
      rw [hj] at hjoin
      simp only [List.singleton_append, List.cons_append, List.nil_append]
      rw [hasDoubleSlash]
      simp [hd, hjoin]
  · simpa using hjoin

end Grux

namespace Grux

theorem splitSlash_unixNormalizeSkipDots (full : Str) :
    ∀ seg ∈ splitSlash (unixNormalizeSkipDots full),
      seg = [] ∨ seg ∈ (splitSlash full).filter keepSeg := by
  rw [unixNormalizeSkipDots]
  have hns : ∀ x ∈ (splitSlash full).filter keepSeg, '/' ∉ x := by
    intro x hx
    exact splitSlash_seg_no_slash full x (List.mem_filter.mp hx).1
  cases hc : (splitSlash full).filter keepSeg with
  | nil =>
    intro seg hseg
    left
    split_ifs at hseg with hroot
    · simp only [joinSlash, List.append_nil] at hseg
      rw [show (['/'] : Str) = '/' :: [] from rfl, splitSlash_cons_slash] at hseg
      rcases List.mem_cons.mp hseg with rfl | hseg
      · rfl
      · simpa [splitSlash] using hseg
    · simpa [joinSlash, splitSlash] using hseg
  | cons y rest =>
    intro seg hseg
    have hns2 : ∀ x ∈ y :: rest, '/' ∉ x := fun x hx => hns x (hc ▸ hx)
    have hjoin2 : splitSlash (joinSlash (y :: rest)) = y :: rest :=
      splitSlash_joinSlash (y :: rest) (by simp) hns2
    split_ifs at hseg with hroot
    · rw [show (['/'] ++ joinSlash (y :: rest)) = '/' :: joinSlash (y :: rest) from rfl,
        splitSlash_cons_slash, hjoin2] at hseg
      rcases List.mem_cons.mp hseg with rfl | hseg
      · exact Or.inl rfl
      · exact Or.inr hseg
    · rw [List.nil_append, hjoin2] at hseg
      exact Or.inr hseg

theorem unixNormalizeSkipDots_chars (full : Str) (c : Char)
    (hc : c ∈ unixNormalizeSkipDots full) : c = '/' ∨ c ∈ full := by
  rw [unixNormalizeSkipDots] at hc
  split_ifs at hc with hroot
  · rcases List.mem_append.mp hc with h | h
    · exact Or.inl (by simpa using h)
    · rcases mem_joinSlash _ c h with h | ⟨x, hx, hcx⟩
      · exact Or.inl h
      · exact Or.inr (splitSlash_seg_chars full x (List.mem_filter.mp hx).1 c hcx)
  · rw [List.nil_append] at hc
    rcases mem_joinSlash _ c hc with h | ⟨x, hx, hcx⟩
    · exact Or.inl h
    · exact Or.inr (splitSlash_seg_chars full x (List.mem_filter.mp hx).1 c hcx)

theorem mem_pushPath (a b : Str) (c : Char) (hc : c ∈ pushPath a b) :
    c ∈ a ∨ c ∈ b ∨ c = '/' := by
  rw [pushPath] at hc
  split_ifs at hc
  · exact Or.inr (Or.inl hc)
  · exact Or.inr (Or.inl hc)
  · rcases List.mem_append.mp hc with h | h
    · exact Or.inl h
    · exact Or.inr (Or.inl h)
  · rcases List.mem_append.mp hc with h | h
    · exact Or.inl h
    · rcases List.mem_cons.mp h with rfl | h
      · exact Or.inr (Or.inr rfl)
      · exact Or.inr (Or.inl h)

end Grux

namespace Grux

/-- C10 (corrected): `get_full_file_path` deletes each `.` and `..`
component without touching the preceding component (`"/a/b/../c"` becomes
`"/a/b/c"`), and its result never contains a backslash or a duplicate
slash.  The "no `.` or `..` components in the result" part however only
holds when neither the input nor the current directory contains a
backslash: a backslash hides a dot component from the component scan and
the later `\`-to-`/` fold re-exposes it (see
`c10_get_full_file_path_counterexample`). -/
theorem c10_get_full_file_path_amended (cwd input : Str) :
    get_full_file_path cwd (str "/a/b/../c") = str "/a/b/c"
    ∧ '\\' ∉ get_full_file_path cwd input
    ∧ hasDoubleSlash (get_full_file_path cwd input) = false
    ∧ ('\\' ∉ cwd → '\\' ∉ input →
        ∀ seg ∈ splitSlash (get_full_file_path cwd input),
          seg ≠ str "." ∧ seg ≠ str "..") := by
  refine ⟨rfl, ?_, ?_, ?_⟩
  · intro hmem
    have h1 := mem_collapseLoop _ _ _ hmem
    exact mem_replaceChar_ne_old '\\' '/' (by decide) _ '\\' h1 rfl
  · exact collapseLoop_no_ds _ _ (Nat.le_refl _)
  · intro hcwd hinput seg hseg
    have hfullbs : '\\' ∉ (if isAbsolutePath input then input else pushPath cwd input) := by
      split_ifs
      · exact hinput
      · intro h
        rcases mem_pushPath cwd input '\\' h with h | h | h
        · exact hcwd h
        · exact hinput h
        · exact absurd h (by decide)
    have hnormbs : ∀ c ∈ unixNormalizeSkipDots
        (if isAbsolutePath input then input else pushPath cwd input), c ≠ '\\' := by
      intro c hc hcb
      subst hcb
      rcases unixNormalizeSkipDots_chars _ '\\' hc with h | h
      · exact absurd h (by decide)
      · exact hfullbs h
    have hres : get_full_file_path cwd input = unixNormalizeSkipDots
        (if isAbsolutePath input then input else pushPath cwd input) := by
      rw [get_full_file_path]
      rw [replaceChar_id _ _ _ hnormbs]
      exact collapseLoop_id _ _ (unixNormalizeSkipDots_no_ds _)
    rw [hres] at hseg
    rcases splitSlash_unixNormalizeSkipDots _ seg hseg with rfl | hkeep
    · exact ⟨by decide, by decide⟩
    · obtain ⟨_, hk⟩ := List.mem_filter.mp hkeep
      obtain ⟨_, h2, h3⟩ := keepSeg_props seg hk
      exact ⟨h2, h3⟩

/-- C10 witness: the amended statement evaluated at `cwd = "/home"`,
`input = "/a/./x"`: the result `"/a/x"` has clean segments. -/
theorem c10_get_full_file_path_witness :
    ∀ seg ∈ splitSlash (get_full_file_path (str "/home") (str "/a/./x")),
      seg ≠ str "." ∧ seg ≠ str ".." :=
  (c10_get_full_file_path_amended (str "/home") (str "/a/./x")).2.2.2
    (by decide) (by decide)

/-- C10 counterexample: on Unix a backslash is an ordinary name character,
so `"/x\../y"` has the single component `x\..`; the backslash fold then
turns the result into `"/x/../y"`, which still contains a `..` component:
the claim's "the returned path contains no `.` or `..` components" is
false as stated. -/
theorem c10_get_full_file_path_counterexample :
    get_full_file_path (str "/") (str "/x\\../y") = str "/x/../y"
    ∧ str ".." ∈ splitSlash (get_full_file_path (str "/") (str "/x\\../y")) := by
  constructor
  · rfl
  · decide

end Grux
